import Mathlib

/-!
Verification of the raster-buffer and remapping core of `undistort.cc`.

The C++ `Image` class is embedded as a Lean structure over a byte list;
`float` arithmetic of the bilinear sampler is modelled over `ℚ` with the
C library's truncation (`static_cast<int>` / `modf`) and rounding
(`std::round`, half away from zero) made explicit; machine-integer
narrowing (`static_cast<unsigned char>`) is modelled by `% 256`.
The external Lensfun modifiers are opaque collaborators: they enter the
embedding as function parameters (`res`, `back`, `pc`) exactly where the
C++ code consumes their output buffers.
-/

namespace Kamscan

/-- `Image` from undistort.cc: width, height, bytes per channel,
channel count, and the raw byte buffer (`std::vector<unsigned char> data`). -/
@[ext]
structure Image where
  width : ℕ
  height : ℕ
  channel_size : ℕ
  channels : ℕ
  data : List ℕ
deriving DecidableEq

/-- `static_cast<int>` applied to a float: truncation toward zero. -/
def qtrunc (q : ℚ) : ℤ :=
  if 0 ≤ q then ⌊q⌋ else -⌊-q⌋

/-- `std::round` followed by `static_cast<int>`: round half away from zero. -/
def qround (q : ℚ) : ℤ :=
  if 0 ≤ q then ⌊q + 1 / 2⌋ else -⌊-q + 1 / 2⌋

/-- `static_cast<unsigned char>` of an `int`: reduction modulo 256
(two's-complement narrowing). -/
def toByte (v : ℤ) : ℕ :=
  (v % 256).toNat

/-- The C expression `value & 256` on a 32-bit two's-complement `int`. -/
def lowMask (v : ℤ) : ℤ :=
  (((v % 4294967296).toNat &&& 256 : ℕ) : ℤ)

/-- The C expression `value >> 8` on an `int` (arithmetic shift). -/
def shr8 (v : ℤ) : ℤ :=
  Int.fdiv v 256

/-- `Image::get(int x, int y, int channel)`: 0 outside the image,
otherwise the sample decoded from the byte buffer at the computed offset
(big-endian pair for 2-byte channels). -/
def Image.get (img : Image) (x y : ℤ) (channel : ℕ) : ℤ :=
  if x < 0 ∨ (img.width : ℤ) ≤ x ∨ y < 0 ∨ (img.height : ℤ) ≤ y then 0
  else
    let position : ℕ := img.channel_size * (img.channels * (y.toNat * img.width + x.toNat) + channel)
    let result : ℤ := (img.data.getD position 0 : ℕ)
    if img.channel_size = 2 then result * 256 + (img.data.getD (position + 1) 0 : ℕ)
    else result

/-- The bilinear blend computed by `Image::get(float, float, int)` before
rounding: horizontal interpolation of the two sample rows, then vertical. -/
def cellInterp (i0 i1 i2 i3 fx fy : ℚ) : ℚ :=
  (1 - fy) * ((1 - fx) * i0 + fx * i1) + fy * ((1 - fx) * i2 + fx * i3)

/-- `Image::get(float x, float y, int channel)`: bilinear interpolation of
the four integer samples at `(trunc x, trunc y)` and its +1 neighbours,
with the `modf` fractional parts as weights, rounded by `std::round`. -/
def Image.getF (img : Image) (x y : ℚ) (channel : ℕ) : ℤ :=
  let x0 : ℤ := qtrunc x
  let y0 : ℤ := qtrunc y
  qround (cellInterp (img.get x0 y0 channel) (img.get (x0 + 1) y0 channel)
    (img.get x0 (y0 + 1) channel) (img.get (x0 + 1) (y0 + 1) channel)
    (x - (qtrunc x : ℤ)) (y - (qtrunc y : ℤ)))

/-- `Image::set(int x, int y, int channel, int value)`: in-bounds writes
store the narrowed value; one byte when `channel_size == 1`, high byte
`value >> 8` then low byte `value & 256` (the source's literal expression)
when `channel_size == 2`; out-of-bounds writes are ignored. -/
def Image.set (img : Image) (x y : ℤ) (channel : ℕ) (value : ℤ) : Image :=
  if 0 ≤ x ∧ x < (img.width : ℤ) ∧ 0 ≤ y ∧ y < (img.height : ℤ) then
    let position : ℕ := img.channel_size * (img.channels * (y.toNat * img.width + x.toNat) + channel)
    if img.channel_size = 1 then
      { img with data := img.data.set position (toByte value) }
    else if img.channel_size = 2 then
      { img with data := (img.data.set position (toByte (shr8 value))).set (position + 1) (toByte (lowMask value)) }
    else img
  else img

/-- `Image::Image(const Image &)`: copies the four dimension fields and
resizes a fresh (hence zero-filled) buffer; pixel contents are not copied. -/
def Image.copy (img : Image) : Image :=
  { width := img.width, height := img.height, channel_size := img.channel_size,
    channels := img.channels,
    data := List.replicate (img.width * img.height * img.channel_size * img.channels) 0 }

/-- Buffer invariant maintained by the constructors:
the byte buffer length matches the declared geometry. -/
def Image.wf (img : Image) : Prop :=
  img.data.length = img.width * img.height * img.channel_size * img.channels

/-! ## The dense remap loop of `undistort`

`res` stands for the `std::vector<float>` filled by the Lensfun modifier
(`ApplySubpixelGeometryDistortion` for 3 channels, `ApplyGeometryDistortion`
otherwise); the loop below consumes it exactly as lines 318-332 of the
source do. -/

/-- The body of the double loop at one output pixel `(x, y)`: reads the
source coordinates from `res` at `2 * channels * (y * width + x)`, writes
channel 0, and channels 1 and 2 as well when `channels == 3`. -/
def remapBody (img : Image) (res : ℕ → ℚ) (acc : Image) (x y : ℕ) : Image :=
  let position : ℕ := 2 * img.channels * (y * img.width + x)
  let acc0 := acc.set x y 0 (img.getF (res position) (res (position + 1)) 0)
  if img.channels = 3 then
    let acc1 := acc0.set x y 1 (img.getF (res (position + 2)) (res (position + 3)) 1)
    acc1.set x y 2 (img.getF (res (position + 4)) (res (position + 5)) 2)
  else acc0

/-- The inner loop: `for (int y = 0; y < n; y++)` applying `remapBody`
at column `x`. -/
def innerFold (img : Image) (res : ℕ → ℚ) (x : ℕ) (acc : Image) (n : ℕ) : Image :=
  (List.range n).foldl (fun a y => remapBody img res a x y) acc

/-- The dense remap: copy-construct `new_image` from `image`, then loop
`x` over the width and, inside, `y` over the height. -/
def remap (img : Image) (res : ℕ → ℚ) : Image :=
  (List.range img.width).foldl (fun acc x => innerFold img res x acc img.height) img.copy

/-- The value `set` is called with at output pixel `(x, y)`, channel `c`:
bilinear `get` at the source coordinate pair the modifier reported for
that pixel and channel (channel `c` occupies slots `2c` and `2c + 1` of
the pixel's block in `res`). -/
def targetVal (img : Image) (res : ℕ → ℚ) (x y c : ℕ) : ℤ :=
  img.getF (res (2 * img.channels * (y * img.width + x) + 2 * c))
    (res (2 * img.channels * (y * img.width + x) + 2 * c + 1)) c

/-- What integer `get` returns after `set` stored `v` (the storage
round-trip): one narrowed byte for 1-byte channels; for 2-byte channels
the high byte `v >> 8` shifted back, the low byte being `(v & 256)`
narrowed — which is always zero. -/
def stored (cs : ℕ) (v : ℤ) : ℤ :=
  if cs = 2 then (toByte (shr8 v) : ℤ) * 256 + (toByte (lowMask v) : ℤ)
  else (toByte v : ℤ)

/-! ## Corner bookkeeping and the bounding box

Lines 281-305 build the 6-entry coordinate vectors; lines 336-344
overwrite entries 0-3 with their back-projections and assemble the
reported rectangle.  The external modifiers enter as the point maps
`pc` and `back`. -/

/-- The x-coordinate vector built by the six `push_back` calls, in source
order: `x0, x2, x1, x3, x0, x1` (arguments `0..3` are TL, TR, BL, BR). -/
def refXs (x0 x1 x2 x3 : ℚ) : List ℚ :=
  [x0, x2, x1, x3, x0, x1]

/-- The y-coordinate vector built by the six `push_back` calls. -/
def refYs (y0 y1 y2 y3 : ℚ) : List ℚ :=
  [y0, y2, y1, y3, y0, y1]

/-- The 6-point list handed to `EnablePerspectiveCorrection`: each entry of
the reference vectors projected through `pc_coord_modifier`'s
single-point `ApplyGeometryDistortion`, in order. -/
def undistList (pc : ℚ × ℚ → ℚ × ℚ) (x0 y0 x1 y1 x2 y2 x3 y3 : ℚ) : List (ℚ × ℚ) :=
  (List.zip (refXs x0 x1 x2 x3) (refYs y0 y1 y2 y3)).map pc

/-- Lines 336-344: back-project entries 0-3 of the reference vectors
through `back_modifier`, then return
`(min(x[0],x[2]), min(y[0],y[1]), max(x[1],x[3]) - min(x[0],x[2]), max(y[2],y[3]) - min(y[0],y[1]))`. -/
def bboxCode (back : ℚ × ℚ → ℚ × ℚ) (x0 y0 x1 y1 x2 y2 x3 y3 : ℚ) : ℚ × ℚ × ℚ × ℚ :=
  let xs := refXs x0 x1 x2 x3
  let ys := refYs y0 y1 y2 y3
  let px := fun i => (back (xs.getD i 0, ys.getD i 0)).1
  let py := fun i => (back (xs.getD i 0, ys.getD i 0)).2
  (min (px 0) (px 2), min (py 0) (py 1),
    max (px 1) (px 3) - min (px 0) (px 2), max (py 2) (py 3) - min (py 0) (py 1))

/-- The bounding box the specification describes, indexing the
back-projected corners by the input convention 0=TL, 1=TR, 2=BL, 3=BR:
`[min(x0,x2), min(y0,y1), max(x1,x3) - min(x0,x2), max(y2,y3) - min(y0,y1)]`. -/
def bboxClaimed (back : ℚ × ℚ → ℚ × ℚ) (x0 y0 x1 y1 x2 y2 x3 y3 : ℚ) : ℚ × ℚ × ℚ × ℚ :=
  let pTL := back (x0, y0)
  let pTR := back (x1, y1)
  let pBL := back (x2, y2)
  let pBR := back (x3, y3)
  (min pTL.1 pBL.1, min pTL.2 pTR.2,
    max pTR.1 pBR.1 - min pTL.1 pBL.1, max pBL.2 pBR.2 - min pTL.2 pTR.2)

/-! ## Database lookups (lines 232-259)

`FindCamerasExt` / `FindLenses` return a NULL-terminated match array,
NULL when nothing matches; we model the matches as a list, `[]` for NULL.
Every failure raises the same Python exception type, so the only
distinguishing datum is the message string. -/

/-- Message of the camera branch's single `else` (the `%i` is
`(int)sizeof(cameras)`, a pointer size, hence a constant). -/
def cameraErrMsg : String :=
  "Cannot find unique camera in database.  8 cameras found."

/-- Message of the `!lenses` branch. -/
def lensNotFoundMsg : String :=
  "Cannot find lens in database"

/-- Message of the final lens `else` branch. -/
def lensAmbiguousMsg : String :=
  "Lens name ambiguous"

/-- Camera lookup: `cameras && !cameras[1]` succeeds with `cameras[0]`;
every other outcome (no match or several) raises one identical error. -/
def findCamera {α : Type} (cameras : List α) : Except String α :=
  match cameras with
  | [c] => Except.ok c
  | _ => Except.error cameraErrMsg

/-- Lens lookup: `lenses && !lenses[1]` succeeds; `!lenses` reports
"not found"; anything else reports "ambiguous". -/
def findLens {α : Type} (lenses : List α) : Except String α :=
  match lenses with
  | [l] => Except.ok l
  | [] => Except.error lensNotFoundMsg
  | _ => Except.error lensAmbiguousMsg

/-! ## The PNM codec (`operator>>` and `operator<<`)

Streams are byte lists.  `>>` on strings and ints skips C-locale
whitespace and reads up to the next delimiter; `get()` consumes one byte;
`read(n)` takes `n` bytes, leaving the zero-fill of `resize` in place if
the stream is short. -/

/-- C-locale `isspace` on a byte. -/
def isWs (b : ℕ) : Bool :=
  b = 32 || b = 9 || b = 10 || b = 11 || b = 12 || b = 13

/-- Leading-whitespace skipping performed by every formatted `>>` read. -/
def skipWs (s : List ℕ) : List ℕ :=
  s.dropWhile isWs

/-- `inputStream >> magic_number`: skip whitespace, then read the maximal
non-whitespace run, returning it with the unread remainder. -/
def readToken (s : List ℕ) : List ℕ × List ℕ :=
  let s1 := skipWs s
  (s1.takeWhile (fun b => !isWs b), s1.dropWhile (fun b => !isWs b))

/-- ASCII decimal digit test. -/
def isDigit (b : ℕ) : Bool :=
  48 ≤ b && b ≤ 57

/-- Consume a maximal digit run, accumulating its decimal value. -/
def readDigits : ℕ → List ℕ → ℕ × List ℕ
  | acc, [] => (acc, [])
  | acc, b :: rest =>
    if isDigit b then readDigits (acc * 10 + (b - 48)) rest else (acc, b :: rest)

/-- The digit-run consumption of `>>` on an `int` once whitespace is
gone: an optional minus sign, then at least one digit; `none` models the
stream entering a failed state. -/
def readIntCore : List ℕ → Option (ℤ × List ℕ)
  | [] => none
  | b :: rest =>
    if b = 45 then
      match rest with
      | [] => none
      | r :: _ =>
        if isDigit r then
          let p := readDigits 0 rest
          some (-(p.1 : ℤ), p.2)
        else none
    else if isDigit b then
      let p := readDigits 0 (b :: rest)
      some ((p.1 : ℤ), p.2)
    else none

/-- `inputStream >> someInt`: skip whitespace, then read a signed digit
run. -/
def readInt (s : List ℕ) : Option (ℤ × List ℕ) :=
  readIntCore (skipWs s)

/-- `operator>>(istream, Image)`: magic token `P5`/`P6` fixes the channel
count, then width, height and the maximum colour value are read (255 and
65535 fixing the channel size), one whitespace byte is skipped, and
`width * height * channel_size * channels` data bytes are read into the
zero-initialised buffer.  `none` models the `throw` branches and a failed
header read. -/
def parseImage (s : List ℕ) : Option Image :=
  let t := readToken s
  match (if t.1 = [80, 53] then some 1 else if t.1 = [80, 54] then some 3 else none : Option ℕ) with
  | none => none
  | some ch =>
    match readInt t.2 with
    | none => none
    | some (w, s2) =>
      match readInt s2 with
      | none => none
      | some (h, s3) =>
        match readInt s3 with
        | none => none
        | some (mcv, s4) =>
          let s5 := s4.drop 1
          match (if mcv = 255 then some 1 else if mcv = 65535 then some 2 else none : Option ℕ) with
          | none => none
          | some cs =>
            let size := w.toNat * h.toNat * cs * ch
            some { width := w.toNat, height := h.toNat, channel_size := cs, channels := ch,
                   data := s5.take size ++ List.replicate (size - s5.length) 0 }

/-- Decimal digit bytes of a natural number, most significant first
(what `operator<<` on an `int` emits). -/
def decDigits (n : ℕ) : List ℕ :=
  if n < 10 then [48 + n] else decDigits (n / 10) ++ [48 + n % 10]
decreasing_by
  exact Nat.div_lt_self (by omega) (by omega)

/-- Number of decimal digits `decDigits` emits. -/
def decLen (n : ℕ) : ℕ :=
  if n < 10 then 1 else decLen (n / 10) + 1
decreasing_by
  exact Nat.div_lt_self (by omega) (by omega)

/-- `operator<<(ostream, Image)`: `P6` when `channels == 3` else `P5`, a
newline, width, a space, height, a newline, `255` when
`channel_size == 1` else `65535`, a newline, then the raw bytes. -/
def serializeImage (img : Image) : List ℕ :=
  (if img.channels = 3 then [80, 54] else [80, 53]) ++ [10]
    ++ decDigits img.width ++ [32] ++ decDigits img.height ++ [10]
    ++ (if img.channel_size = 1 then [50, 53, 53] else [54, 53, 53, 51, 53]) ++ [10]
    ++ img.data

/-- Modelled from the spec: the identity "geometry transform provider"
stub of the end-to-end scenario (§8) — the per-pixel map the modifier
writes into `res` reports, for every output pixel of a `w`-wide
single-channel image, that pixel's own coordinates
(`res[2*(y*w+x)] = x`, `res[2*(y*w+x)+1] = y`). -/
def identRes (w : ℕ) : ℕ → ℚ :=
  fun n => if n % 2 = 0 then ((n / 2 % w : ℕ) : ℚ) else ((n / 2 / w : ℕ) : ℚ)

/-- Two images agreeing on all four geometry fields (the situation of
`new_image` versus `image` after the copy construction). -/
def dimsEq (a b : Image) : Prop :=
  a.width = b.width ∧ a.height = b.height ∧ a.channel_size = b.channel_size ∧ a.channels = b.channels

/-! ## Basic arithmetic lemmas -/

lemma toByte_cast (v : ℤ) : ((toByte v : ℕ) : ℤ) = v % 256 := by
  unfold toByte
  exact Int.toNat_of_nonneg (Int.emod_nonneg v (by norm_num))

lemma and256 (m : ℕ) : m &&& 256 = 0 ∨ m &&& 256 = 256 := by
  have h := Nat.and_two_pow m 8
  norm_num at h
  rw [h]
  cases hb : m.testBit 8 <;> simp

lemma toByte_lowMask (v : ℤ) : toByte (lowMask v) = 0 := by
  unfold toByte lowMask
  rcases and256 ((v % 4294967296).toNat) with h | h <;> rw [h] <;> decide

lemma qround_intCast (z : ℤ) : qround ((z : ℚ)) = z := by
  unfold qround
  have h0 : (⌊(1 / 2 : ℚ)⌋ : ℤ) = 0 := by norm_num
  split
  · rw [Int.floor_int_add, h0, add_zero]
  · rw [show -(z : ℚ) = ((-z : ℤ) : ℚ) by push_cast; ring, Int.floor_int_add, h0, add_zero,
      neg_neg]

lemma le_qround {z : ℤ} {q : ℚ} (h : (z : ℚ) ≤ q) : z ≤ qround q := by
  unfold qround
  split
  · rw [Int.le_floor]
    linarith
  · have h2 : ⌊-q + 1 / 2⌋ < -z + 1 := by
      rw [Int.floor_lt]
      push_cast
      linarith
    omega

lemma qround_le {z : ℤ} {q : ℚ} (h : q ≤ (z : ℚ)) : qround q ≤ z := by
  unfold qround
  split
  · have h2 : ⌊q + 1 / 2⌋ < z + 1 := by
      rw [Int.floor_lt]
      push_cast
      linarith
    omega
  · have h2 : -z ≤ ⌊-q + 1 / 2⌋ := by
      rw [Int.le_floor]
      push_cast
      linarith
    omega

lemma qtrunc_of_nonneg {q : ℚ} (h : 0 ≤ q) : qtrunc q = ⌊q⌋ := by
  unfold qtrunc
  exact if_pos h

lemma qtrunc_intCast (z : ℤ) : qtrunc ((z : ℚ)) = z := by
  unfold qtrunc
  split
  · exact Int.floor_intCast z
  · rw [show -(z : ℚ) = ((-z : ℤ) : ℚ) by push_cast; ring, Int.floor_intCast, neg_neg]

lemma qtrunc_natCast (n : ℕ) : qtrunc ((n : ℚ)) = (n : ℤ) := by
  rw [show ((n : ℕ) : ℚ) = (((n : ℕ) : ℤ) : ℚ) by push_cast; ring]
  exact qtrunc_intCast n

/-! ## List buffer lemmas -/

lemma getD_set_self {l : List ℕ} {n : ℕ} (v : ℕ) (h : n < l.length) :
    (l.set n v).getD n 0 = v := by
  rw [List.getD_eq_getElem?_getD, List.getElem?_set_eq_of_lt _ h]
  rfl

lemma getD_set_ne {l : List ℕ} {n m : ℕ} (v : ℕ) (h : n ≠ m) :
    (l.set n v).getD m 0 = l.getD m 0 := by
  rw [List.getD_eq_getElem?_getD, List.getD_eq_getElem?_getD, List.getElem?_set_ne h]

/-! ## Offset arithmetic -/

lemma mul_add_lt_inj {k a b r s : ℕ} (hr : r < k) (hs : s < k)
    (h : k * a + r = k * b + s) : a = b ∧ r = s := by
  have h1 : (k * a + r) % k = r := by
    rw [Nat.mul_add_mod]
    exact Nat.mod_eq_of_lt hr
  have h2 : (k * b + s) % k = s := by
    rw [Nat.mul_add_mod]
    exact Nat.mod_eq_of_lt hs
  have hrs : r = s := by rw [← h1, h, h2]
  refine ⟨?_, hrs⟩
  have hk : 0 < k := lt_of_le_of_lt (Nat.zero_le _) hr
  have h3 : k * a = k * b := by omega
  exact Nat.eq_of_mul_eq_mul_left hk h3

lemma sample_inj {w ch : ℕ} {x x' y y' c c' : ℕ}
    (hx : x < w) (hx' : x' < w) (hc : c < ch) (hc' : c' < ch)
    (h : ch * (y * w + x) + c = ch * (y' * w + x') + c') : x = x' ∧ y = y' ∧ c = c' := by
  obtain ⟨h1, h2⟩ := mul_add_lt_inj hc hc' h
  have h3 : w * y + x = w * y' + x' := by
    rw [Nat.mul_comm w y, Nat.mul_comm w y']
    omega
  obtain ⟨hy, hx2⟩ := mul_add_lt_inj hx hx' h3
  exact ⟨hx2, hy, h2⟩

lemma position_add_le {img : Image} (hwf : img.wf) {x y c : ℕ}
    (hx : x < img.width) (hy : y < img.height) (hc : c < img.channels) :
    img.channel_size * (img.channels * (y * img.width + x) + c) + img.channel_size
      ≤ img.data.length := by
  rw [hwf]
  have h1 : y * img.width + x + 1 ≤ img.height * img.width := by
    calc y * img.width + x + 1 ≤ y * img.width + img.width := by omega
      _ = (y + 1) * img.width := by ring
      _ ≤ img.height * img.width := Nat.mul_le_mul_right _ (by omega)
  have h2 : img.channels * (y * img.width + x) + c + 1
      ≤ img.channels * (img.height * img.width) := by
    calc img.channels * (y * img.width + x) + c + 1
        ≤ img.channels * (y * img.width + x) + img.channels := by omega
      _ = img.channels * (y * img.width + x + 1) := by ring
      _ ≤ img.channels * (img.height * img.width) := Nat.mul_le_mul_left _ h1
  calc img.channel_size * (img.channels * (y * img.width + x) + c) + img.channel_size
      = img.channel_size * (img.channels * (y * img.width + x) + c + 1) := by ring
    _ ≤ img.channel_size * (img.channels * (img.height * img.width)) :=
        Nat.mul_le_mul_left _ h2
    _ = img.width * img.height * img.channel_size * img.channels := by ring

/-! ## `set` / `get` interaction -/

lemma set_fields (img : Image) (x y : ℤ) (c : ℕ) (v : ℤ) :
    (img.set x y c v).width = img.width ∧ (img.set x y c v).height = img.height ∧
    (img.set x y c v).channel_size = img.channel_size ∧
    (img.set x y c v).channels = img.channels ∧
    (img.set x y c v).data.length = img.data.length := by
  unfold Image.set
  split
  · split
    · simp
    · split
      · simp
      · simp
  · simp

lemma set_wf {img : Image} (h : img.wf) (x y : ℤ) (c : ℕ) (v : ℤ) :
    (img.set x y c v).wf := by
  obtain ⟨h1, h2, h3, h4, h5⟩ := set_fields img x y c v
  unfold Image.wf at h ⊢
  rw [h1, h2, h3, h4, h5, h]

lemma set_dimsEq (img : Image) (x y : ℤ) (c : ℕ) (v : ℤ) :
    dimsEq (img.set x y c v) img := by
  obtain ⟨h1, h2, h3, h4, _⟩ := set_fields img x y c v
  exact ⟨h1, h2, h3, h4⟩

lemma get_mk1 {w h ch : ℕ} (l : List ℕ) {x y : ℕ} (hx : x < w) (hy : y < h) (c : ℕ) :
    (Image.mk w h 1 ch l).get (x : ℤ) (y : ℤ) c
      = ((l.getD (1 * (ch * (y * w + x) + c)) 0 : ℕ) : ℤ) := by
  unfold Image.get
  rw [if_neg (show ¬((x : ℤ) < 0 ∨ (w : ℤ) ≤ (x : ℤ) ∨ (y : ℤ) < 0 ∨ (h : ℤ) ≤ (y : ℤ)) by omega)]
  simp only [Int.toNat_natCast]
  rw [if_neg (show ¬(1 : ℕ) = 2 by omega)]

lemma get_mk2 {w h ch : ℕ} (l : List ℕ) {x y : ℕ} (hx : x < w) (hy : y < h) (c : ℕ) :
    (Image.mk w h 2 ch l).get (x : ℤ) (y : ℤ) c
      = ((l.getD (2 * (ch * (y * w + x) + c)) 0 : ℕ) : ℤ) * 256
        + ((l.getD (2 * (ch * (y * w + x) + c) + 1) 0 : ℕ) : ℤ) := by
  unfold Image.get
  rw [if_neg (show ¬((x : ℤ) < 0 ∨ (w : ℤ) ≤ (x : ℤ) ∨ (y : ℤ) < 0 ∨ (h : ℤ) ≤ (y : ℤ)) by omega)]
  simp only [Int.toNat_natCast]
  rw [if_pos trivial]

lemma set_mk1 {w h ch : ℕ} (l : List ℕ) {x y : ℕ} (hx : x < w) (hy : y < h) (c : ℕ) (v : ℤ) :
    (Image.mk w h 1 ch l).set (x : ℤ) (y : ℤ) c v
      = Image.mk w h 1 ch (l.set (1 * (ch * (y * w + x) + c)) (toByte v)) := by
  unfold Image.set
  rw [if_pos (show (0 : ℤ) ≤ (x : ℤ) ∧ (x : ℤ) < (w : ℤ) ∧ (0 : ℤ) ≤ (y : ℤ) ∧ (y : ℤ) < (h : ℤ) by
    refine ⟨by omega, by omega, by omega, by omega⟩)]
  simp only [Int.toNat_natCast]
  rw [if_pos trivial]

lemma set_mk2 {w h ch : ℕ} (l : List ℕ) {x y : ℕ} (hx : x < w) (hy : y < h) (c : ℕ) (v : ℤ) :
    (Image.mk w h 2 ch l).set (x : ℤ) (y : ℤ) c v
      = Image.mk w h 2 ch
          ((l.set (2 * (ch * (y * w + x) + c)) (toByte (shr8 v))).set
            (2 * (ch * (y * w + x) + c) + 1) (toByte (lowMask v))) := by
  unfold Image.set
  rw [if_pos (show (0 : ℤ) ≤ (x : ℤ) ∧ (x : ℤ) < (w : ℤ) ∧ (0 : ℤ) ≤ (y : ℤ) ∧ (y : ℤ) < (h : ℤ) by
    refine ⟨by omega, by omega, by omega, by omega⟩)]
  simp only [Int.toNat_natCast]
  rw [if_neg (show ¬(2 : ℕ) = 1 by omega), if_pos trivial]

lemma get_set_same {img : Image} (hwf : img.wf)
    (hcs : img.channel_size = 1 ∨ img.channel_size = 2)
    {x y c : ℕ} (hx : x < img.width) (hy : y < img.height) (hc : c < img.channels) (v : ℤ) :
    (img.set (x : ℤ) (y : ℤ) c v).get (x : ℤ) (y : ℤ) c = stored img.channel_size v := by
  have hpos := position_add_le hwf hx hy hc
  obtain ⟨w, h, cs, ch, l⟩ := img
  dsimp only at hx hy hc hcs hpos
  unfold Image.wf at hwf
  dsimp only at hwf
  rcases hcs with h1 | h2
  · subst h1
    rw [set_mk1 l hx hy c v, get_mk1 _ hx hy c]
    rw [getD_set_self _ (by omega)]
    unfold stored
    rw [if_neg (show ¬(1 : ℕ) = 2 by omega)]
  · subst h2
    rw [set_mk2 l hx hy c v, get_mk2 _ hx hy c]
    rw [getD_set_ne _ (show 2 * (ch * (y * w + x) + c) + 1 ≠ 2 * (ch * (y * w + x) + c) by omega)]
    rw [getD_set_self _ (by omega)]
    rw [getD_set_self _ (by simp only [List.length_set]; omega)]
    unfold stored
    rw [if_pos (show (2 : ℕ) = 2 from rfl)]

lemma get_set_ne {img : Image} (hwf : img.wf)
    (hcs : img.channel_size = 1 ∨ img.channel_size = 2)
    {x y c x' y' c' : ℕ}
    (hx : x < img.width) (hy : y < img.height) (hc : c < img.channels)
    (hx' : x' < img.width) (hy' : y' < img.height) (hc' : c' < img.channels)
    (hne : ¬(x' = x ∧ y' = y ∧ c' = c)) (v : ℤ) :
    (img.set (x : ℤ) (y : ℤ) c v).get (x' : ℤ) (y' : ℤ) c' = img.get (x' : ℤ) (y' : ℤ) c' := by
  have hSne : img.channels * (y' * img.width + x') + c'
      ≠ img.channels * (y * img.width + x) + c := by
    intro hEq
    obtain ⟨e1, e2, e3⟩ := sample_inj hx' hx hc' hc hEq
    exact hne ⟨e1, e2, e3⟩
  have hpos := position_add_le hwf hx hy hc
  obtain ⟨w, h, cs, ch, l⟩ := img
  dsimp only at hx hy hc hx' hy' hc' hcs hSne hpos
  unfold Image.wf at hwf
  dsimp only at hwf
  rcases hcs with h1 | h2
  · subst h1
    rw [set_mk1 l hx hy c v, get_mk1 _ hx' hy' c', get_mk1 l hx' hy' c']
    rw [getD_set_ne _ (show 1 * (ch * (y * w + x) + c) ≠ 1 * (ch * (y' * w + x') + c') by omega)]
  · subst h2
    rw [set_mk2 l hx hy c v, get_mk2 _ hx' hy' c', get_mk2 l hx' hy' c']
    rw [getD_set_ne _ (show 2 * (ch * (y * w + x) + c) + 1 ≠ 2 * (ch * (y' * w + x') + c') by omega)]
    rw [getD_set_ne _ (show 2 * (ch * (y * w + x) + c) ≠ 2 * (ch * (y' * w + x') + c') by omega)]
    rw [getD_set_ne _ (show 2 * (ch * (y * w + x) + c) + 1 ≠ 2 * (ch * (y' * w + x') + c') + 1 by omega)]
    rw [getD_set_ne _ (show 2 * (ch * (y * w + x) + c) ≠ 2 * (ch * (y' * w + x') + c') + 1 by omega)]

@[simp] lemma set_width (img : Image) (x y : ℤ) (c : ℕ) (v : ℤ) :
    (img.set x y c v).width = img.width := (set_fields img x y c v).1

@[simp] lemma set_height (img : Image) (x y : ℤ) (c : ℕ) (v : ℤ) :
    (img.set x y c v).height = img.height := (set_fields img x y c v).2.1

@[simp] lemma set_csize (img : Image) (x y : ℤ) (c : ℕ) (v : ℤ) :
    (img.set x y c v).channel_size = img.channel_size := (set_fields img x y c v).2.2.1

@[simp] lemma set_chans (img : Image) (x y : ℤ) (c : ℕ) (v : ℤ) :
    (img.set x y c v).channels = img.channels := (set_fields img x y c v).2.2.2.1

@[simp] lemma set_len (img : Image) (x y : ℤ) (c : ℕ) (v : ℤ) :
    (img.set x y c v).data.length = img.data.length := (set_fields img x y c v).2.2.2.2

/-! ## The remap loop, pixel by pixel -/

lemma foldl_range_succ {α : Type} (f : α → ℕ → α) (init : α) (m : ℕ) :
    (List.range (m + 1)).foldl f init = f ((List.range m).foldl f init) m := by
  rw [List.range_succ, List.foldl_append]
  rfl

lemma remapBody_fields (img : Image) (res : ℕ → ℚ) (acc : Image) (x y : ℕ) :
    (remapBody img res acc x y).width = acc.width ∧
    (remapBody img res acc x y).height = acc.height ∧
    (remapBody img res acc x y).channel_size = acc.channel_size ∧
    (remapBody img res acc x y).channels = acc.channels ∧
    (remapBody img res acc x y).data.length = acc.data.length := by
  simp only [remapBody]
  split <;> simp

lemma innerFold_succ (img : Image) (res : ℕ → ℚ) (x : ℕ) (acc : Image) (n : ℕ) :
    innerFold img res x acc (n + 1) = remapBody img res (innerFold img res x acc n) x n := by
  unfold innerFold
  exact foldl_range_succ _ acc n

lemma innerFold_fields (img : Image) (res : ℕ → ℚ) (x : ℕ) (acc : Image) (n : ℕ) :
    (innerFold img res x acc n).width = acc.width ∧
    (innerFold img res x acc n).height = acc.height ∧
    (innerFold img res x acc n).channel_size = acc.channel_size ∧
    (innerFold img res x acc n).channels = acc.channels ∧
    (innerFold img res x acc n).data.length = acc.data.length := by
  induction n with
  | zero => exact ⟨rfl, rfl, rfl, rfl, rfl⟩
  | succ n ih =>
    rw [innerFold_succ]
    have hb := remapBody_fields img res (innerFold img res x acc n) x n
    exact ⟨hb.1.trans ih.1, hb.2.1.trans ih.2.1, hb.2.2.1.trans ih.2.2.1,
      hb.2.2.2.1.trans ih.2.2.2.1, hb.2.2.2.2.trans ih.2.2.2.2⟩

lemma dimsEq_trans {a b c : Image} (h1 : dimsEq a b) (h2 : dimsEq b c) : dimsEq a c :=
  ⟨h1.1.trans h2.1, h1.2.1.trans h2.2.1, h1.2.2.1.trans h2.2.2.1, h1.2.2.2.trans h2.2.2.2⟩

lemma wf_of_dims {a b : Image} (hd : dimsEq a b) (hl : a.data.length = b.data.length)
    (hb : b.wf) : a.wf := by
  unfold Image.wf at hb ⊢
  rw [hl, hd.1, hd.2.1, hd.2.2.1, hd.2.2.2, hb]

lemma remapBody_get {img acc : Image} {res : ℕ → ℚ} (hd : dimsEq acc img) (hwf : acc.wf)
    (hcs : img.channel_size = 1 ∨ img.channel_size = 2)
    (hch : img.channels = 1 ∨ img.channels = 3)
    {x y x' y' c' : ℕ} (hx : x < img.width) (hy : y < img.height)
    (hx' : x' < img.width) (hy' : y' < img.height) (hc' : c' < img.channels) :
    (remapBody img res acc x y).get (x' : ℤ) (y' : ℤ) c' =
      if x' = x ∧ y' = y then stored img.channel_size (targetVal img res x' y' c')
      else acc.get (x' : ℤ) (y' : ℤ) c' := by
  obtain ⟨d1, d2, d3, d4⟩ := hd
  have hcsa : acc.channel_size = 1 ∨ acc.channel_size = 2 := by omega
  simp only [remapBody]
  rcases hch with h1 | h3
  · rw [if_neg (show ¬img.channels = 3 by omega)]
    have hc0 : c' = 0 := by omega
    subst hc0
    by_cases hxy : x' = x ∧ y' = y
    · obtain ⟨ex, ey⟩ := hxy
      subst ex
      subst ey
      rw [if_pos ⟨rfl, rfl⟩]
      rw [get_set_same hwf hcsa (by omega) (by omega) (by omega) _]
      unfold targetVal
      rw [d3]
      norm_num
    · rw [if_neg hxy]
      exact get_set_ne hwf hcsa (by omega) (by omega) (by omega) (by omega) (by omega) (by omega)
        (fun hcon => hxy ⟨hcon.1, hcon.2.1⟩) _
  · rw [if_pos h3]
    have hwf1 : (acc.set (x : ℤ) (y : ℤ) 0 (img.getF (res (2 * img.channels * (y * img.width + x)))
        (res (2 * img.channels * (y * img.width + x) + 1)) 0)).wf := set_wf hwf _ _ _ _
    have hwf2 : ((acc.set (x : ℤ) (y : ℤ) 0 (img.getF (res (2 * img.channels * (y * img.width + x)))
        (res (2 * img.channels * (y * img.width + x) + 1)) 0)).set (x : ℤ) (y : ℤ) 1
          (img.getF (res (2 * img.channels * (y * img.width + x) + 2))
            (res (2 * img.channels * (y * img.width + x) + 3)) 1)).wf := set_wf hwf1 _ _ _ _
    by_cases hxy : x' = x ∧ y' = y
    · obtain ⟨ex, ey⟩ := hxy
      subst ex
      subst ey
      rw [if_pos ⟨rfl, rfl⟩]
      have hc012 : c' = 0 ∨ c' = 1 ∨ c' = 2 := by omega
      rcases hc012 with e0 | e1 | e2
      · subst e0
        rw [get_set_ne hwf2 (by simp only [set_csize]; omega) (by simp only [set_width]; omega)
          (by simp only [set_height]; omega) (by simp only [set_chans]; omega)
          (by simp only [set_width]; omega) (by simp only [set_height]; omega)
          (by simp only [set_chans]; omega) (by simp) _]
        rw [get_set_ne hwf1 (by simp only [set_csize]; omega) (by simp only [set_width]; omega)
          (by simp only [set_height]; omega) (by simp only [set_chans]; omega)
          (by simp only [set_width]; omega) (by simp only [set_height]; omega)
          (by simp only [set_chans]; omega) (by simp) _]
        rw [get_set_same hwf hcsa (by omega) (by omega) (by omega) _]
        unfold targetVal
        rw [d3]
        norm_num
      · subst e1
        rw [get_set_ne hwf2 (by simp only [set_csize]; omega) (by simp only [set_width]; omega)
          (by simp only [set_height]; omega) (by simp only [set_chans]; omega)
          (by simp only [set_width]; omega) (by simp only [set_height]; omega)
          (by simp only [set_chans]; omega) (by simp) _]
        rw [get_set_same hwf1 (by simp only [set_csize]; omega) (by simp only [set_width]; omega)
          (by simp only [set_height]; omega) (by simp only [set_chans]; omega) _]
        unfold targetVal
        simp only [set_csize]
        rw [d3]
      · subst e2
        rw [get_set_same hwf2 (by simp only [set_csize]; omega) (by simp only [set_width]; omega)
          (by simp only [set_height]; omega) (by simp only [set_chans]; omega) _]
        unfold targetVal
        simp only [set_csize]
        rw [d3]
    · rw [if_neg hxy]
      rw [get_set_ne hwf2 (by simp only [set_csize]; omega) (by simp only [set_width]; omega)
        (by simp only [set_height]; omega) (by simp only [set_chans]; omega)
        (by simp only [set_width]; omega) (by simp only [set_height]; omega)
        (by simp only [set_chans]; omega) (fun hcon => hxy ⟨hcon.1, hcon.2.1⟩) _]
      rw [get_set_ne hwf1 (by simp only [set_csize]; omega) (by simp only [set_width]; omega)
        (by simp only [set_height]; omega) (by simp only [set_chans]; omega)
        (by simp only [set_width]; omega) (by simp only [set_height]; omega)
        (by simp only [set_chans]; omega) (fun hcon => hxy ⟨hcon.1, hcon.2.1⟩) _]
      exact get_set_ne hwf hcsa (by omega) (by omega) (by omega) (by omega) (by omega) (by omega)
        (fun hcon => hxy ⟨hcon.1, hcon.2.1⟩) _

lemma innerFold_get {img acc : Image} {res : ℕ → ℚ} {x : ℕ} (hd : dimsEq acc img) (hwf : acc.wf)
    (hcs : img.channel_size = 1 ∨ img.channel_size = 2)
    (hch : img.channels = 1 ∨ img.channels = 3)
    (hx : x < img.width) {n : ℕ} (hn : n ≤ img.height)
    {x' y' c' : ℕ} (hx' : x' < img.width) (hy' : y' < img.height) (hc' : c' < img.channels) :
    (innerFold img res x acc n).get (x' : ℤ) (y' : ℤ) c' =
      if x' = x ∧ y' < n then stored img.channel_size (targetVal img res x' y' c')
      else acc.get (x' : ℤ) (y' : ℤ) c' := by
  induction n with
  | zero =>
    rw [show innerFold img res x acc 0 = acc from rfl]
    rw [if_neg (by omega)]
  | succ n ih =>
    have hfields := innerFold_fields img res x acc n
    have hdn : dimsEq (innerFold img res x acc n) img :=
      dimsEq_trans ⟨hfields.1, hfields.2.1, hfields.2.2.1, hfields.2.2.2.1⟩ hd
    have hwfn : (innerFold img res x acc n).wf :=
      wf_of_dims ⟨hfields.1, hfields.2.1, hfields.2.2.1, hfields.2.2.2.1⟩
        (hfields.2.2.2.2.trans (by rfl)) hwf
    rw [innerFold_succ]
    rw [remapBody_get hdn hwfn hcs hch hx (by omega) hx' hy' hc']
    by_cases hcase : x' = x ∧ y' = n
    · rw [if_pos hcase, if_pos ⟨hcase.1, by omega⟩]
    · rw [if_neg hcase, ih (by omega)]
      by_cases hc2 : x' = x ∧ y' < n
      · rw [if_pos hc2, if_pos ⟨hc2.1, by omega⟩]
      · rw [if_neg hc2, if_neg (by
          intro hcon
          rcases hcon with ⟨e, hlt⟩
          have : y' = n ∨ y' < n := by omega
          rcases this with e2 | e2
          · exact hcase ⟨e, e2⟩
          · exact hc2 ⟨e, e2⟩)]

lemma copy_fields (img : Image) :
    (img.copy).width = img.width ∧ (img.copy).height = img.height ∧
    (img.copy).channel_size = img.channel_size ∧ (img.copy).channels = img.channels ∧
    (img.copy).data.length
      = img.width * img.height * img.channel_size * img.channels := by
  refine ⟨rfl, rfl, rfl, rfl, ?_⟩
  simp [Image.copy]

lemma copy_wf (img : Image) : (img.copy).wf := by
  unfold Image.wf
  exact (copy_fields img).2.2.2.2

lemma copy_dimsEq (img : Image) : dimsEq img.copy img :=
  ⟨rfl, rfl, rfl, rfl⟩

lemma outerFold_fields (img : Image) (res : ℕ → ℚ) (m : ℕ) :
    ((List.range m).foldl (fun acc x => innerFold img res x acc img.height) img.copy).width
        = img.width ∧
    ((List.range m).foldl (fun acc x => innerFold img res x acc img.height) img.copy).height
        = img.height ∧
    ((List.range m).foldl (fun acc x => innerFold img res x acc img.height) img.copy).channel_size
        = img.channel_size ∧
    ((List.range m).foldl (fun acc x => innerFold img res x acc img.height) img.copy).channels
        = img.channels ∧
    ((List.range m).foldl (fun acc x => innerFold img res x acc img.height) img.copy).data.length
        = img.width * img.height * img.channel_size * img.channels := by
  induction m with
  | zero => exact copy_fields img
  | succ m ih =>
    rw [foldl_range_succ]
    have hb := innerFold_fields img res m
      ((List.range m).foldl (fun acc x => innerFold img res x acc img.height) img.copy) img.height
    exact ⟨hb.1.trans ih.1, hb.2.1.trans ih.2.1, hb.2.2.1.trans ih.2.2.1,
      hb.2.2.2.1.trans ih.2.2.2.1, hb.2.2.2.2.trans ih.2.2.2.2⟩

lemma outerFold_get {img : Image} {res : ℕ → ℚ}
    (hcs : img.channel_size = 1 ∨ img.channel_size = 2)
    (hch : img.channels = 1 ∨ img.channels = 3)
    {m : ℕ} (hm : m ≤ img.width)
    {x' y' c' : ℕ} (hx' : x' < img.width) (hy' : y' < img.height) (hc' : c' < img.channels) :
    ((List.range m).foldl (fun acc x => innerFold img res x acc img.height) img.copy).get
        (x' : ℤ) (y' : ℤ) c' =
      if x' < m then stored img.channel_size (targetVal img res x' y' c')
      else (img.copy).get (x' : ℤ) (y' : ℤ) c' := by
  induction m with
  | zero =>
    rw [show (List.range 0).foldl (fun acc x => innerFold img res x acc img.height) img.copy
        = img.copy from rfl]
    rw [if_neg (by omega)]
  | succ m ih =>
    have hf := outerFold_fields img res m
    have hdm : dimsEq ((List.range m).foldl (fun acc x => innerFold img res x acc img.height)
        img.copy) img := ⟨hf.1, hf.2.1, hf.2.2.1, hf.2.2.2.1⟩
    have hwfm : ((List.range m).foldl (fun acc x => innerFold img res x acc img.height)
        img.copy).wf := by
      unfold Image.wf
      rw [hf.1, hf.2.1, hf.2.2.1, hf.2.2.2.1, hf.2.2.2.2]
    rw [foldl_range_succ]
    rw [innerFold_get hdm hwfm hcs hch (by omega) (le_refl img.height) hx' hy' hc']
    by_cases hcase : x' = m
    · rw [if_pos ⟨hcase, hy'⟩, if_pos (by omega)]
    · rw [if_neg (fun hcon => hcase hcon.1), ih (by omega)]
      by_cases hlt : x' < m
      · rw [if_pos hlt, if_pos (by omega)]
      · rw [if_neg hlt, if_neg (by omega)]

lemma remap_fields (img : Image) (res : ℕ → ℚ) :
    (remap img res).width = img.width ∧ (remap img res).height = img.height ∧
    (remap img res).channel_size = img.channel_size ∧
    (remap img res).channels = img.channels ∧
    (remap img res).data.length
      = img.width * img.height * img.channel_size * img.channels := by
  unfold remap
  exact outerFold_fields img res img.width

lemma remap_get_aux {img : Image} {res : ℕ → ℚ}
    (hcs : img.channel_size = 1 ∨ img.channel_size = 2)
    (hch : img.channels = 1 ∨ img.channels = 3)
    {x y c : ℕ} (hx : x < img.width) (hy : y < img.height) (hc : c < img.channels) :
    (remap img res).get (x : ℤ) (y : ℤ) c = stored img.channel_size (targetVal img res x y c) := by
  unfold remap
  rw [outerFold_get hcs hch (le_refl img.width) hx hy hc]
  rw [if_pos hx]

/-! ## Bilinear sampling at integer coordinates, and the identity stub -/

lemma cellInterp_zero (i0 i1 i2 i3 : ℚ) : cellInterp i0 i1 i2 i3 0 0 = i0 := by
  unfold cellInterp
  ring

lemma getF_natCast (img : Image) (x y : ℕ) (c : ℕ) :
    img.getF ((x : ℕ) : ℚ) ((y : ℕ) : ℚ) c = img.get ((x : ℕ) : ℤ) ((y : ℕ) : ℤ) c := by
  simp only [Image.getF, qtrunc_natCast, Int.cast_natCast, sub_self]
  rw [cellInterp_zero]
  exact qround_intCast _

lemma get_data {img : Image} (h1 : img.channel_size = 1) {x y : ℕ}
    (hx : x < img.width) (hy : y < img.height) (c : ℕ) :
    img.get ((x : ℕ) : ℤ) ((y : ℕ) : ℤ) c
      = ((img.data.getD (img.channels * (y * img.width + x) + c) 0 : ℕ) : ℤ) := by
  obtain ⟨w, h, cs, ch, l⟩ := img
  dsimp only at h1 hx hy ⊢
  subst h1
  rw [get_mk1 l hx hy c, one_mul]

lemma toByte_of_byte {b : ℕ} (hb : b < 256) : toByte ((b : ℕ) : ℤ) = b := by
  unfold toByte
  rw [Int.emod_eq_of_lt (by positivity) (by exact_mod_cast hb)]
  exact Int.toNat_natCast b

lemma getD_eq_getElem (l : List ℕ) (n : ℕ) (h : n < l.length) : l.getD n 0 = l[n] := by
  rw [List.getD_eq_getElem?_getD, List.getElem?_eq_getElem h]
  rfl

lemma identRes_even (w x y : ℕ) (hx : x < w) :
    identRes w (2 * (y * w + x)) = ((x : ℕ) : ℚ) := by
  unfold identRes
  rw [if_pos (by omega)]
  norm_cast
  rw [Nat.mul_div_cancel_left _ (show 0 < 2 by norm_num)]
  rw [show y * w + x = x + y * w by ring]
  rw [Nat.add_mul_mod_self_right]
  exact Nat.mod_eq_of_lt hx

lemma identRes_odd (w x y : ℕ) (hx : x < w) :
    identRes w (2 * (y * w + x) + 1) = ((y : ℕ) : ℚ) := by
  unfold identRes
  rw [if_neg (by omega)]
  norm_cast
  have h2 : (2 * (y * w + x) + 1) / 2 = y * w + x := by omega
  rw [h2]
  have hw : 0 < w := by omega
  rw [show y * w + x = x + y * w by ring]
  rw [Nat.add_mul_div_right _ _ hw, Nat.div_eq_of_lt hx, zero_add]

lemma bboxCode_expand (back : ℚ × ℚ → ℚ × ℚ) (x0 y0 x1 y1 x2 y2 x3 y3 : ℚ) :
    bboxCode back x0 y0 x1 y1 x2 y2 x3 y3 =
      (min (back (x0, y0)).1 (back (x1, y1)).1,
       min (back (x0, y0)).2 (back (x2, y2)).2,
       max (back (x2, y2)).1 (back (x3, y3)).1 - min (back (x0, y0)).1 (back (x1, y1)).1,
       max (back (x1, y1)).2 (back (x3, y3)).2 - min (back (x0, y0)).2 (back (x2, y2)).2) :=
  rfl

/-! ## Claim theorems -/

/-- C1 (amended): the reported bounding box indexes the back-projected
corners by the internal reference-list order TL, BL, TR, BR (the order the
`push_back` calls established), so it equals
`[min(TL.x, TR.x), min(TL.y, BL.y), max(BL.x, BR.x) - min(TL.x, TR.x),
max(TR.y, BR.y) - min(TL.y, BL.y)]` of the back-projected corners —
not the spec's formula, which indexes them by the input convention. -/
theorem bbox_internal_order (back : ℚ × ℚ → ℚ × ℚ) (x0 y0 x1 y1 x2 y2 x3 y3 : ℚ) :
    bboxCode back x0 y0 x1 y1 x2 y2 x3 y3 =
      (min (back (x0, y0)).1 (back (x1, y1)).1,
       min (back (x0, y0)).2 (back (x2, y2)).2,
       max (back (x2, y2)).1 (back (x3, y3)).1 - min (back (x0, y0)).1 (back (x1, y1)).1,
       max (back (x1, y1)).2 (back (x3, y3)).2 - min (back (x0, y0)).2 (back (x2, y2)).2) :=
  bboxCode_expand back x0 y0 x1 y1 x2 y2 x3 y3

/-- C1 counterexample: with the identity back-projection and corners
TL=(5,0), TR=(10,0), BL=(0,10), BR=(10,10), the code reports (5,0,5,10)
while the spec's formula gives (0,0,10,10). -/
theorem bbox_spec_formula_counterexample :
    bboxCode (fun p => p) 5 0 10 0 0 10 10 10 = (5, 0, 5, 10) ∧
    bboxClaimed (fun p => p) 5 0 10 0 0 10 10 10 = (0, 0, 10, 10) ∧
    bboxCode (fun p => p) 5 0 10 0 0 10 10 10
      ≠ bboxClaimed (fun p => p) 5 0 10 0 0 10 10 10 := by
  have h1 : bboxCode (fun p => p) 5 0 10 0 0 10 10 10 = ((5 : ℚ), (0 : ℚ), (5 : ℚ), (10 : ℚ)) := by
    rw [bboxCode_expand]
    norm_num [min_def, max_def]
  have h2 : bboxClaimed (fun p => p) 5 0 10 0 0 10 10 10
      = ((0 : ℚ), (0 : ℚ), (10 : ℚ), (10 : ℚ)) := by
    simp only [bboxClaimed]
    norm_num [min_def, max_def]
  refine ⟨h1, h2, ?_⟩
  rw [h1, h2]
  norm_num [Prod.mk.injEq]

/-- C2 (amended): every output pixel `(x, y)` and channel `c` of the
completed raster holds the storage encoding (`stored`) of bilinear `get`
at the source coordinate the forward map reported for that pixel and
channel — slots `2c` and `2c + 1` of the pixel's block of `res`, so each
of R, G, B has its own coordinate pair when `channels = 3` and the single
channel uses the one pair when `channels = 1`.  For 8-bit depth the stored
value is the bilinear value mod 256 (the value itself when in 0..255);
for 16-bit depth the low byte is zeroed by the `value & 256` store. -/
theorem remap_pixel_value (img : Image) (res : ℕ → ℚ) (x y c : ℕ)
    (hcs : img.channel_size = 1 ∨ img.channel_size = 2)
    (hch : img.channels = 1 ∨ img.channels = 3)
    (hx : x < img.width) (hy : y < img.height) (hc : c < img.channels) :
    (remap img res).get ((x : ℕ) : ℤ) ((y : ℕ) : ℤ) c =
      stored img.channel_size
        (img.getF (res (2 * img.channels * (y * img.width + x) + 2 * c))
          (res (2 * img.channels * (y * img.width + x) + 2 * c + 1)) c) :=
  remap_get_aux hcs hch hx hy hc

/-- Witness for C2's theorem at a concrete 1×1 8-bit image. -/
theorem remap_pixel_value_witness :
    (remap ⟨1, 1, 1, 1, [5]⟩ (fun _ => 0)).get 0 0 0 =
      stored 1 ((⟨1, 1, 1, 1, [5]⟩ : Image).getF 0 0 0) :=
  remap_pixel_value ⟨1, 1, 1, 1, [5]⟩ (fun _ => 0) 0 0 0 (Or.inl rfl) (Or.inl rfl)
    (by decide) (by decide) (by decide)

/-- C2 counterexample: on a 16-bit image the completed raster does not hold
the bilinear value itself — the identity map reports pixel value 257, but
the raster reads back 256 (the `value & 256` store zeroes the low byte). -/
theorem remap_exact_value_counterexample :
    (⟨1, 1, 2, 1, [1, 1]⟩ : Image).getF 0 0 0 = 257 ∧
    (remap ⟨1, 1, 2, 1, [1, 1]⟩ (fun _ => 0)).get 0 0 0 = 256 ∧
    (256 : ℤ) ≠ 257 := by
  have hgf : (⟨1, 1, 2, 1, [1, 1]⟩ : Image).getF 0 0 0 = 257 := by
    rw [show (0 : ℚ) = ((0 : ℕ) : ℚ) by norm_num, getF_natCast]
    decide
  refine ⟨hgf, ?_, by decide⟩
  have hrm : (remap ⟨1, 1, 2, 1, [1, 1]⟩ (fun _ => 0)).get (((0 : ℕ) : ℤ)) (((0 : ℕ) : ℤ)) 0
      = stored (Image.channel_size ⟨1, 1, 2, 1, [1, 1]⟩)
          (targetVal ⟨1, 1, 2, 1, [1, 1]⟩ (fun _ => 0) 0 0 0) :=
    remap_get_aux (Or.inr rfl) (Or.inl rfl) (by decide) (by decide) (by decide)
  have htv : targetVal ⟨1, 1, 2, 1, [1, 1]⟩ (fun _ => 0) 0 0 0 = 257 := by
    unfold targetVal
    exact hgf
  rw [show (0 : ℤ) = ((0 : ℕ) : ℤ) by norm_num, hrm, htv]
  decide

/-- C3: the code contradicts the intended 16-bit storage: the low-byte
store is `value & 256` (always 0 after narrowing), so `set(0,0,0,257)`
on a 16-bit 1×1 image stores bytes `[1, 0]` and `get` reads back 256,
although `257 & 0xFFFF = 257`. -/
theorem set16_low_byte_bug :
    ((⟨1, 1, 2, 1, [0, 0]⟩ : Image).set 0 0 0 257).data = [1, 0] ∧
    ((⟨1, 1, 2, 1, [0, 0]⟩ : Image).set 0 0 0 257).get 0 0 0 = 256 ∧
    (257 : ℤ) % 65536 = 257 ∧ (256 : ℤ) ≠ 257 := by
  decide

/-- C4: a 100×100 1-channel 8-bit image with the identity transform stub
remaps to an image equal to the input, and the corners (10,10), (90,10),
(10,90), (90,90) (TL, TR, BL, BR) yield bounding box (10, 10, 80, 80). -/
theorem identity_remap_scenario (img : Image)
    (hw : img.width = 100) (hh : img.height = 100)
    (hch : img.channels = 1) (hcs : img.channel_size = 1)
    (hwf : img.wf) (hbytes : ∀ b ∈ img.data, b < 256) :
    remap img (identRes 100) = img ∧
    bboxCode (fun p => p) 10 10 90 10 10 90 90 90 = (10, 10, 80, 80) := by
  have hf := remap_fields img (identRes 100)
  constructor
  · have hlen : (remap img (identRes 100)).data.length = img.data.length := by
      rw [hf.2.2.2.2, hwf]
    refine Image.ext hf.1 hf.2.1 hf.2.2.1 hf.2.2.2.1 ?_
    refine List.ext_getElem hlen ?_
    intro p hp1 hp2
    have hplen : p < 10000 := by
      have := hp2
      rw [hwf, hw, hh, hch, hcs] at this
      omega
    have hx : p % 100 < 100 := Nat.mod_lt _ (by norm_num)
    have hy : p / 100 < 100 := by omega
    have hxw : p % 100 < img.width := by omega
    have hyh : p / 100 < img.height := by omega
    have hcc : 0 < img.channels := by omega
    have h1 : (remap img (identRes 100)).get ((p % 100 : ℕ) : ℤ) ((p / 100 : ℕ) : ℤ) 0
        = stored img.channel_size (targetVal img (identRes 100) (p % 100) (p / 100) 0) :=
      remap_get_aux (Or.inl hcs) (Or.inl hch) hxw hyh hcc
    have hidx : 2 * img.channels * (p / 100 * img.width + p % 100) + 2 * 0
        = 2 * (p / 100 * 100 + p % 100) := by
      rw [hch, hw]
      ring
    have ht : targetVal img (identRes 100) (p % 100) (p / 100) 0
        = img.get ((p % 100 : ℕ) : ℤ) ((p / 100 : ℕ) : ℤ) 0 := by
      unfold targetVal
      rw [hidx, identRes_even 100 (p % 100) (p / 100) hx,
        identRes_odd 100 (p % 100) (p / 100) hx]
      exact getF_natCast img (p % 100) (p / 100) 0
    have hgd : img.get ((p % 100 : ℕ) : ℤ) ((p / 100 : ℕ) : ℤ) 0
        = ((img.data.getD p 0 : ℕ) : ℤ) := by
      rw [get_data hcs hxw hyh 0]
      have he : img.channels * (p / 100 * img.width + p % 100) + 0 = p := by
        rw [hch, hw]
        omega
      rw [he]
    have hbyte : img.data.getD p 0 < 256 := by
      have hm : img.data.getD p 0 ∈ img.data := by
        rw [getD_eq_getElem img.data p hp2]
        exact List.getElem_mem hp2
      exact hbytes _ hm
    have hst : stored img.channel_size ((img.data.getD p 0 : ℕ) : ℤ)
        = ((img.data.getD p 0 : ℕ) : ℤ) := by
      unfold stored
      rw [if_neg (show ¬img.channel_size = 2 by omega)]
      rw [toByte_of_byte hbyte]
    have h2 : (remap img (identRes 100)).get ((p % 100 : ℕ) : ℤ) ((p / 100 : ℕ) : ℤ) 0
        = (((remap img (identRes 100)).data.getD p 0 : ℕ) : ℤ) := by
      rw [get_data (hf.2.2.1.trans hcs) (by omega) (by omega) 0]
      have he : (remap img (identRes 100)).channels
            * (p / 100 * (remap img (identRes 100)).width + p % 100) + 0 = p := by
        rw [hf.2.2.2.1, hch, hf.1, hw]
        omega
      rw [he]
    have hnat : (remap img (identRes 100)).data.getD p 0 = img.data.getD p 0 := by
      have hchain := h2.symm.trans (h1.trans (by rw [ht, hgd, hst]))
      exact_mod_cast hchain
    rw [getD_eq_getElem _ p hp1, getD_eq_getElem _ p hp2] at hnat
    exact hnat
  · rw [bboxCode_expand]
    norm_num [min_def, max_def]

/-- Witness for C4's theorem at the all-zero 100×100 image. -/
theorem identity_remap_scenario_witness :
    remap ⟨100, 100, 1, 1, List.replicate 10000 0⟩ (identRes 100)
      = ⟨100, 100, 1, 1, List.replicate 10000 0⟩ ∧
    bboxCode (fun p => p) 10 10 90 10 10 90 90 90 = (10, 10, 80, 80) :=
  identity_remap_scenario ⟨100, 100, 1, 1, List.replicate 10000 0⟩ rfl rfl rfl rfl
    (by
      unfold Image.wf
      rw [List.length_replicate]
      norm_num)
    (by
      intro b hb
      rw [List.eq_of_mem_replicate hb]
      norm_num)

/-- C7 (amended): both lookups fail whenever the match list does not have
exactly one entry; the lens lookup's "not found" and "ambiguous" failures
carry distinct messages, but the camera lookup produces one identical
error in both cases. -/
theorem lookup_error_cases (α : Type) (cams lenses : List α) :
    (cams.length ≠ 1 → findCamera cams = Except.error cameraErrMsg) ∧
    (lenses = [] → findLens lenses = Except.error lensNotFoundMsg) ∧
    (2 ≤ lenses.length → findLens lenses = Except.error lensAmbiguousMsg) ∧
    lensNotFoundMsg ≠ lensAmbiguousMsg := by
  refine ⟨?_, ?_, ?_, by decide⟩
  · intro hne
    match cams with
    | [] => rfl
    | [c] => exact absurd rfl hne
    | a :: b :: t => rfl
  · intro he
    subst he
    rfl
  · intro hlen
    match lenses with
    | [] => simp at hlen
    | [l] => simp at hlen
    | a :: b :: t => rfl

/-- Witness for C7's theorem at concrete match lists. -/
theorem lookup_error_cases_witness :
    findCamera ([] : List ℕ) = Except.error cameraErrMsg ∧
    findLens ([] : List ℕ) = Except.error lensNotFoundMsg ∧
    findLens [(0 : ℕ), 1] = Except.error lensAmbiguousMsg :=
  ⟨(lookup_error_cases ℕ [] []).1 (by decide),
   (lookup_error_cases ℕ [] []).2.1 rfl,
   (lookup_error_cases ℕ [] [0, 1]).2.2.1 (by decide)⟩

/-- C7 counterexample: zero camera matches and two camera matches produce
the very same error value, so the camera lookup's "not found" failure is
not distinguishable from its "ambiguous" failure. -/
theorem camera_lookup_indistinguishable :
    findCamera ([] : List ℕ) = Except.error cameraErrMsg ∧
    findCamera [(0 : ℕ), 1] = Except.error cameraErrMsg ∧
    findCamera ([] : List ℕ) = findCamera [(0 : ℕ), 1] :=
  ⟨rfl, rfl, rfl⟩

/-- C8: the projected reference list handed to the perspective solver has
exactly 6 points, built from the corners (arguments (x0,y0)=TL, (x1,y1)=TR,
(x2,y2)=BL, (x3,y3)=BR) in the order TL, BL, TR, BR, TL, TR. -/
theorem reference_points_order (pc : ℚ × ℚ → ℚ × ℚ) (x0 y0 x1 y1 x2 y2 x3 y3 : ℚ) :
    undistList pc x0 y0 x1 y1 x2 y2 x3 y3 =
      [pc (x0, y0), pc (x2, y2), pc (x1, y1), pc (x3, y3), pc (x0, y0), pc (x1, y1)] ∧
    (undistList pc x0 y0 x1 y1 x2 y2 x3 y3).length = 6 :=
  ⟨rfl, rfl⟩

/-- C9: for in-bounds x, y and channel, the byte offset `get`/`set`
compute — and the following byte when the depth is 16 bit — lies strictly
inside the data buffer; the channel bound is a hypothesis because the
code's guard checks only x and y. -/
theorem access_offsets_in_bounds (img : Image) (x y c : ℕ) (hwf : img.wf)
    (hcs : img.channel_size = 1 ∨ img.channel_size = 2)
    (hx : x < img.width) (hy : y < img.height) (hc : c < img.channels) :
    img.channel_size * (img.channels * (y * img.width + x) + c) < img.data.length ∧
    (img.channel_size = 2 →
      img.channel_size * (img.channels * (y * img.width + x) + c) + 1 < img.data.length) := by
  have hp := position_add_le hwf hx hy hc
  exact ⟨by omega, fun h2 => by omega⟩

/-- Witness for C9's theorem on a 2×2 16-bit RGB image. -/
theorem access_offsets_in_bounds_witness :
    (2 : ℕ) * (3 * (1 * 2 + 1) + 2) < ((⟨2, 2, 2, 3, List.replicate 24 0⟩ : Image)).data.length ∧
    ((2 : ℕ) = 2 →
      2 * (3 * (1 * 2 + 1) + 2) + 1 < ((⟨2, 2, 2, 3, List.replicate 24 0⟩ : Image)).data.length) :=
  access_offsets_in_bounds ⟨2, 2, 2, 3, List.replicate 24 0⟩ 1 1 2 rfl (Or.inr rfl)
    (by decide) (by decide) (by decide)

/-- C10: the copy constructor duplicates the four geometry fields and
allocates a matching-length buffer whose bytes are all zero — the pixel
contents are not copied. -/
theorem copy_ctor_spec (img : Image) :
    (img.copy).width = img.width ∧ (img.copy).height = img.height ∧
    (img.copy).channel_size = img.channel_size ∧ (img.copy).channels = img.channels ∧
    (img.copy).data
      = List.replicate (img.width * img.height * img.channel_size * img.channels) 0 ∧
    (img.wf → (img.copy).data.length = img.data.length) := by
  refine ⟨rfl, rfl, rfl, rfl, rfl, ?_⟩
  intro hwf
  rw [(copy_fields img).2.2.2.2, hwf]

/-- Witness for C10's theorem at a concrete 2×1 image. -/
theorem copy_ctor_spec_witness :
    ((⟨2, 1, 1, 1, [7, 8]⟩ : Image).copy).data = List.replicate 2 0 ∧
    ((⟨2, 1, 1, 1, [7, 8]⟩ : Image).copy).data.length = 2 :=
  ⟨(copy_ctor_spec ⟨2, 1, 1, 1, [7, 8]⟩).2.2.2.2.1,
   (copy_ctor_spec ⟨2, 1, 1, 1, [7, 8]⟩).2.2.2.2.2 rfl⟩


/-! ## Bilinear envelope (C5 support) -/

lemma cellInterp_bounds (i0 i1 i2 i3 lo hi fx fy : ℚ)
    (h0 : lo ≤ i0) (h1 : lo ≤ i1) (h2 : lo ≤ i2) (h3 : lo ≤ i3)
    (g0 : i0 ≤ hi) (g1 : i1 ≤ hi) (g2 : i2 ≤ hi) (g3 : i3 ≤ hi)
    (hfx0 : 0 ≤ fx) (hfx1 : fx ≤ 1) (hfy0 : 0 ≤ fy) (hfy1 : fy ≤ 1) :
    lo ≤ cellInterp i0 i1 i2 i3 fx fy ∧ cellInterp i0 i1 i2 i3 fx fy ≤ hi := by
  unfold cellInterp
  constructor
  · nlinarith [mul_nonneg (mul_nonneg (sub_nonneg.2 hfx1) (sub_nonneg.2 hfy1)) (sub_nonneg.2 h0),
      mul_nonneg (mul_nonneg hfx0 (sub_nonneg.2 hfy1)) (sub_nonneg.2 h1),
      mul_nonneg (mul_nonneg (sub_nonneg.2 hfx1) hfy0) (sub_nonneg.2 h2),
      mul_nonneg (mul_nonneg hfx0 hfy0) (sub_nonneg.2 h3)]
  · nlinarith [mul_nonneg (mul_nonneg (sub_nonneg.2 hfx1) (sub_nonneg.2 hfy1)) (sub_nonneg.2 g0),
      mul_nonneg (mul_nonneg hfx0 (sub_nonneg.2 hfy1)) (sub_nonneg.2 g1),
      mul_nonneg (mul_nonneg (sub_nonneg.2 hfx1) hfy0) (sub_nonneg.2 g2),
      mul_nonneg (mul_nonneg hfx0 hfy0) (sub_nonneg.2 g3)]

lemma qround_cellInterp_bounds (i0 i1 i2 i3 : ℤ) {fx fy : ℚ}
    (hfx0 : 0 ≤ fx) (hfx1 : fx ≤ 1) (hfy0 : 0 ≤ fy) (hfy1 : fy ≤ 1) :
    min (min i0 i1) (min i2 i3)
      ≤ qround (cellInterp (i0 : ℚ) (i1 : ℚ) (i2 : ℚ) (i3 : ℚ) fx fy) ∧
    qround (cellInterp (i0 : ℚ) (i1 : ℚ) (i2 : ℚ) (i3 : ℚ) fx fy)
      ≤ max (max i0 i1) (max i2 i3) := by
  have h0 : min (min i0 i1) (min i2 i3) ≤ i0 := le_trans (min_le_left _ _) (min_le_left _ _)
  have h1 : min (min i0 i1) (min i2 i3) ≤ i1 := le_trans (min_le_left _ _) (min_le_right _ _)
  have h2 : min (min i0 i1) (min i2 i3) ≤ i2 := le_trans (min_le_right _ _) (min_le_left _ _)
  have h3 : min (min i0 i1) (min i2 i3) ≤ i3 := le_trans (min_le_right _ _) (min_le_right _ _)
  have g0 : i0 ≤ max (max i0 i1) (max i2 i3) := le_trans (le_max_left _ _) (le_max_left _ _)
  have g1 : i1 ≤ max (max i0 i1) (max i2 i3) := le_trans (le_max_right _ _) (le_max_left _ _)
  have g2 : i2 ≤ max (max i0 i1) (max i2 i3) := le_trans (le_max_left _ _) (le_max_right _ _)
  have g3 : i3 ≤ max (max i0 i1) (max i2 i3) := le_trans (le_max_right _ _) (le_max_right _ _)
  have hb := cellInterp_bounds (i0 : ℚ) (i1 : ℚ) (i2 : ℚ) (i3 : ℚ)
    ((min (min i0 i1) (min i2 i3) : ℤ) : ℚ) ((max (max i0 i1) (max i2 i3) : ℤ) : ℚ) fx fy
    (Int.cast_le.mpr h0) (Int.cast_le.mpr h1) (Int.cast_le.mpr h2) (Int.cast_le.mpr h3)
    (Int.cast_le.mpr g0) (Int.cast_le.mpr g1) (Int.cast_le.mpr g2) (Int.cast_le.mpr g3)
    hfx0 hfx1 hfy0 hfy1
  exact ⟨le_qround hb.1, qround_le hb.2⟩

lemma qround_of_neg {q : ℚ} (h : q < 0) : qround q = -⌊-q + 1 / 2⌋ := by
  unfold qround
  rw [if_neg (not_le.mpr h)]

/-- C5 (amended): for nonnegative coordinates the bilinear result stays
within the min/max envelope of the four samples it interpolates; at exact
grid points it equals the integer sample; and the pre-rounding blend is
affine in each fractional coordinate, so along either axis it approaches
the cell-edge value monotonically. -/
theorem bilinear_envelope_monotone (img : Image) (x y : ℚ) (c : ℕ)
    (hx : 0 ≤ x) (hy : 0 ≤ y) :
    (min (min (img.get (qtrunc x) (qtrunc y) c) (img.get (qtrunc x + 1) (qtrunc y) c))
        (min (img.get (qtrunc x) (qtrunc y + 1) c) (img.get (qtrunc x + 1) (qtrunc y + 1) c))
      ≤ img.getF x y c ∧
      img.getF x y c
        ≤ max (max (img.get (qtrunc x) (qtrunc y) c) (img.get (qtrunc x + 1) (qtrunc y) c))
            (max (img.get (qtrunc x) (qtrunc y + 1) c) (img.get (qtrunc x + 1) (qtrunc y + 1) c))) ∧
    (x = ((qtrunc x : ℤ) : ℚ) → y = ((qtrunc y : ℤ) : ℚ) →
      img.getF x y c = img.get (qtrunc x) (qtrunc y) c) ∧
    (∀ i0 i1 i2 i3 fx fy : ℚ,
      cellInterp i0 i1 i2 i3 fx fy
          = cellInterp i0 i1 i2 i3 0 fy
            + fx * (cellInterp i0 i1 i2 i3 1 fy - cellInterp i0 i1 i2 i3 0 fy) ∧
      cellInterp i0 i1 i2 i3 fx fy
          = cellInterp i0 i1 i2 i3 fx 0
            + fy * (cellInterp i0 i1 i2 i3 fx 1 - cellInterp i0 i1 i2 i3 fx 0)) := by
  have hgf : img.getF x y c = qround (cellInterp
      ((img.get (qtrunc x) (qtrunc y) c : ℤ) : ℚ)
      ((img.get (qtrunc x + 1) (qtrunc y) c : ℤ) : ℚ)
      ((img.get (qtrunc x) (qtrunc y + 1) c : ℤ) : ℚ)
      ((img.get (qtrunc x + 1) (qtrunc y + 1) c : ℤ) : ℚ)
      (x - ((qtrunc x : ℤ) : ℚ)) (y - ((qtrunc y : ℤ) : ℚ))) := rfl
  have hfx0 : 0 ≤ x - ((qtrunc x : ℤ) : ℚ) := by
    rw [qtrunc_of_nonneg hx]
    have := Int.floor_le x
    linarith
  have hfx1 : x - ((qtrunc x : ℤ) : ℚ) ≤ 1 := by
    rw [qtrunc_of_nonneg hx]
    have := Int.lt_floor_add_one x
    linarith
  have hfy0 : 0 ≤ y - ((qtrunc y : ℤ) : ℚ) := by
    rw [qtrunc_of_nonneg hy]
    have := Int.floor_le y
    linarith
  have hfy1 : y - ((qtrunc y : ℤ) : ℚ) ≤ 1 := by
    rw [qtrunc_of_nonneg hy]
    have := Int.lt_floor_add_one y
    linarith
  refine ⟨?_, ?_, ?_⟩
  · rw [hgf]
    exact qround_cellInterp_bounds _ _ _ _ hfx0 hfx1 hfy0 hfy1
  · intro hex hey
    rw [hgf, sub_eq_zero.mpr hex, sub_eq_zero.mpr hey, cellInterp_zero, qround_intCast]
  · intro i0 i1 i2 i3 fx fy
    constructor <;> (unfold cellInterp; ring)

/-- Witness for C5's theorem: envelope at image ⟨1,1,1,1,[7]⟩, x = 1/2, y = 0. -/
theorem bilinear_envelope_monotone_witness :
    min (min ((⟨1, 1, 1, 1, [7]⟩ : Image).get (qtrunc (1 / 2)) (qtrunc 0) 0)
        ((⟨1, 1, 1, 1, [7]⟩ : Image).get (qtrunc (1 / 2) + 1) (qtrunc 0) 0))
      (min ((⟨1, 1, 1, 1, [7]⟩ : Image).get (qtrunc (1 / 2)) (qtrunc 0 + 1) 0)
        ((⟨1, 1, 1, 1, [7]⟩ : Image).get (qtrunc (1 / 2) + 1) (qtrunc 0 + 1) 0))
      ≤ (⟨1, 1, 1, 1, [7]⟩ : Image).getF (1 / 2) 0 0 ∧
    (⟨1, 1, 1, 1, [7]⟩ : Image).getF (1 / 2) 0 0
      ≤ max (max ((⟨1, 1, 1, 1, [7]⟩ : Image).get (qtrunc (1 / 2)) (qtrunc 0) 0)
          ((⟨1, 1, 1, 1, [7]⟩ : Image).get (qtrunc (1 / 2) + 1) (qtrunc 0) 0))
        (max ((⟨1, 1, 1, 1, [7]⟩ : Image).get (qtrunc (1 / 2)) (qtrunc 0 + 1) 0)
          ((⟨1, 1, 1, 1, [7]⟩ : Image).get (qtrunc (1 / 2) + 1) (qtrunc 0 + 1) 0)) :=
  (bilinear_envelope_monotone ⟨1, 1, 1, 1, [7]⟩ (1 / 2) 0 0 (by norm_num) le_rfl).1

/-- C5 counterexample: at the negative fractional coordinate x = -1/2 the
`modf`/truncation pair yields weight -1/2, and the result -128 overshoots
below the minimum (0) of the four samples the code interpolates. -/
theorem bilinear_overshoot_counterexample :
    (⟨2, 1, 1, 1, [0, 255]⟩ : Image).getF (-(1 / 2)) 0 0 = -128 ∧
    (⟨2, 1, 1, 1, [0, 255]⟩ : Image).get (qtrunc (-(1 / 2))) (qtrunc 0) 0 = 0 ∧
    (⟨2, 1, 1, 1, [0, 255]⟩ : Image).get (qtrunc (-(1 / 2)) + 1) (qtrunc 0) 0 = 255 ∧
    (⟨2, 1, 1, 1, [0, 255]⟩ : Image).get (qtrunc (-(1 / 2))) (qtrunc 0 + 1) 0 = 0 ∧
    (⟨2, 1, 1, 1, [0, 255]⟩ : Image).get (qtrunc (-(1 / 2)) + 1) (qtrunc 0 + 1) 0 = 0 ∧
    (-128 : ℤ) < 0 := by
  have ht1 : qtrunc (-(1 / 2) : ℚ) = 0 := by
    unfold qtrunc
    rw [if_neg (by norm_num : ¬(0 : ℚ) ≤ -(1 / 2))]
    norm_num
  have ht0 : qtrunc (0 : ℚ) = 0 := by
    unfold qtrunc
    rw [if_pos le_rfl]
    norm_num
  have hs0 : (⟨2, 1, 1, 1, [0, 255]⟩ : Image).get 0 0 0 = 0 := by decide
  have hs1 : (⟨2, 1, 1, 1, [0, 255]⟩ : Image).get (0 + 1) 0 0 = 255 := by decide
  have hs2 : (⟨2, 1, 1, 1, [0, 255]⟩ : Image).get 0 (0 + 1) 0 = 0 := by decide
  have hs3 : (⟨2, 1, 1, 1, [0, 255]⟩ : Image).get (0 + 1) (0 + 1) 0 = 0 := by decide
  have hgf : (⟨2, 1, 1, 1, [0, 255]⟩ : Image).getF (-(1 / 2)) 0 0 = -128 := by
    simp only [Image.getF, ht1, ht0]
    rw [hs0, hs1, hs2, hs3]
    have hcell : cellInterp ((0 : ℤ) : ℚ) ((255 : ℤ) : ℚ) ((0 : ℤ) : ℚ) ((0 : ℤ) : ℚ)
        (-(1 / 2) - ((0 : ℤ) : ℚ)) (0 - ((0 : ℤ) : ℚ)) = -(255 / 2) := by
      unfold cellInterp
      norm_num
    rw [hcell, qround_of_neg (by norm_num)]
    norm_num
  rw [ht1, ht0]
  exact ⟨hgf, hs0, hs1, hs2, hs3, by norm_num⟩


/-! ## Codec round-trip (C6 support) -/

lemma decDigits_cons : ∀ n : ℕ, ∃ b t, decDigits n = b :: t ∧ isDigit b = true := by
  intro n
  induction n using Nat.strong_induction_on with
  | _ n ih =>
    rw [decDigits]
    split
    · rename_i h
      refine ⟨48 + n, [], rfl, ?_⟩
      simp only [isDigit, Bool.and_eq_true, decide_eq_true_eq]
      omega
    · rename_i h
      obtain ⟨b, t, hbt, hb⟩ := ih (n / 10) (Nat.div_lt_self (by omega) (by omega))
      refine ⟨b, t ++ [48 + n % 10], ?_, hb⟩
      rw [hbt]
      rfl

lemma readDigits_append : ∀ n acc rest, readDigits acc (decDigits n ++ rest)
    = readDigits (acc * 10 ^ decLen n + n) rest := by
  intro n
  induction n using Nat.strong_induction_on with
  | _ n ih =>
    intro acc rest
    by_cases h : n < 10
    · rw [decDigits, decLen, if_pos h, if_pos h]
      show readDigits acc ((48 + n) :: rest) = readDigits (acc * 10 ^ 1 + n) rest
      simp only [readDigits]
      rw [if_pos (by simp only [isDigit, Bool.and_eq_true, decide_eq_true_eq]; omega)]
      congr 1
      omega
    · rw [decDigits, decLen, if_neg h, if_neg h, List.append_assoc]
      rw [ih (n / 10) (Nat.div_lt_self (by omega) (by omega)) acc ([48 + n % 10] ++ rest)]
      show readDigits (acc * 10 ^ decLen (n / 10) + n / 10) ((48 + n % 10) :: rest) = _
      simp only [readDigits]
      rw [if_pos (by simp only [isDigit, Bool.and_eq_true, decide_eq_true_eq]; omega)]
      congr 1
      have hm : 48 + n % 10 - 48 = n % 10 := by omega
      have hdm := Nat.div_add_mod n 10
      calc (acc * 10 ^ decLen (n / 10) + n / 10) * 10 + (48 + n % 10 - 48)
          = acc * (10 ^ decLen (n / 10) * 10) + (10 * (n / 10) + n % 10) := by rw [hm]; ring
        _ = acc * (10 ^ decLen (n / 10) * 10) + n := by rw [hdm]
        _ = acc * 10 ^ (decLen (n / 10) + 1) + n := by rw [pow_succ]

lemma readDigits_stop (acc : ℕ) (b : ℕ) (t : List ℕ) (hb : isDigit b = false) :
    readDigits acc (b :: t) = (acc, b :: t) := by
  simp only [readDigits]
  rw [if_neg (by simp [hb])]

lemma isWs_of_digit {b : ℕ} (hb : isDigit b = true) : isWs b = false := by
  simp only [isDigit, Bool.and_eq_true, decide_eq_true_eq] at hb
  simp only [isWs, Bool.or_eq_false_iff, decide_eq_false_iff_not]
  omega

lemma skipWs_cons_ws {b : ℕ} (hb : isWs b = true) (s : List ℕ) :
    skipWs (b :: s) = skipWs s := by
  unfold skipWs
  rw [List.dropWhile_cons, if_pos hb]

lemma skipWs_decDigits (n : ℕ) (rest : List ℕ) :
    skipWs (decDigits n ++ rest) = decDigits n ++ rest := by
  obtain ⟨d, t, hdt, hd⟩ := decDigits_cons n
  rw [hdt]
  show skipWs (d :: (t ++ rest)) = d :: (t ++ rest)
  unfold skipWs
  rw [List.dropWhile_cons, if_neg (by simp [isWs_of_digit hd])]

lemma readInt_ws_dec (wsb : ℕ) (hws : isWs wsb = true) (n : ℕ) (b : ℕ) (t : List ℕ)
    (hb : isDigit b = false) :
    readInt (wsb :: (decDigits n ++ b :: t)) = some ((n : ℤ), b :: t) := by
  unfold readInt
  rw [skipWs_cons_ws hws, skipWs_decDigits]
  obtain ⟨d, dt, hdt, hd⟩ := decDigits_cons n
  have h45 : ¬d = 45 := by
    simp only [isDigit, Bool.and_eq_true, decide_eq_true_eq] at hd
    omega
  rw [hdt]
  show readIntCore (d :: (dt ++ b :: t)) = some ((n : ℤ), b :: t)
  simp only [readIntCore]
  rw [if_neg h45, if_pos hd]
  have hrd : readDigits 0 (d :: (dt ++ b :: t)) = (n, b :: t) := by
    rw [show d :: (dt ++ b :: t) = (d :: dt) ++ b :: t from rfl, ← hdt,
      readDigits_append n 0 (b :: t), readDigits_stop _ _ _ hb]
    norm_num
  rw [hrd]

lemma decDigits_255 : decDigits 255 = [50, 53, 53] := by
  simp [decDigits]

lemma decDigits_65535 : decDigits 65535 = [54, 53, 53, 51, 53] := by
  simp [decDigits]


lemma take_pad_eq {l : List ℕ} {n : ℕ} (h : l.length = n) :
    List.take n l ++ List.replicate (n - l.length) 0 = l := by
  subst h
  rw [List.take_length, Nat.sub_self]
  simp

lemma parseImage_canonical (m chv csv w h : ℕ) (dw dh dm : List ℕ) (mcv : ℤ) (l : List ℕ)
    (hmagic : (if ([80, m] : List ℕ) = [80, 53] then some 1
        else if ([80, m] : List ℕ) = [80, 54] then some 3 else none) = some chv)
    (htokm : readToken (80 :: m :: 10 :: (dw ++ 32 :: (dh ++ 10 :: (dm ++ 10 :: l))))
        = ([80, m], 10 :: (dw ++ 32 :: (dh ++ 10 :: (dm ++ 10 :: l)))))
    (hw : readInt (10 :: (dw ++ 32 :: (dh ++ 10 :: (dm ++ 10 :: l))))
        = some ((w : ℤ), 32 :: (dh ++ 10 :: (dm ++ 10 :: l))))
    (hh : readInt (32 :: (dh ++ 10 :: (dm ++ 10 :: l))) = some ((h : ℤ), 10 :: (dm ++ 10 :: l)))
    (hm : readInt (10 :: (dm ++ 10 :: l)) = some (mcv, 10 :: l))
    (hcs : (if mcv = 255 then some 1 else if mcv = 65535 then some 2 else none : Option ℕ)
        = some csv)
    (hlen : l.length = w * h * csv * chv) :
    parseImage (80 :: m :: 10 :: (dw ++ 32 :: (dh ++ 10 :: (dm ++ 10 :: l))))
      = some (Image.mk w h csv chv l) := by
  simp only [parseImage, htokm, hmagic, hw, hh, hm, hcs, Int.toNat_natCast,
    List.drop_succ_cons, List.drop_zero]
  rw [take_pad_eq hlen]

/-- C6 (amended): streams in the serializer's canonical layout round-trip
exactly: parsing the serialization of any well-formed image yields that
image back, hence re-serializing reproduces the byte stream.  Arbitrary
parser-accepted streams need not round-trip, because the parser accepts
header whitespace the serializer never emits. -/
theorem parse_serialize_roundtrip (img : Image)
    (hch : img.channels = 1 ∨ img.channels = 3)
    (hcs : img.channel_size = 1 ∨ img.channel_size = 2)
    (hwf : img.wf) :
    parseImage (serializeImage img) = some img := by
  obtain ⟨w, h, cs, ch, l⟩ := img
  dsimp only at hch hcs
  unfold Image.wf at hwf
  dsimp only at hwf
  rcases hch with h1 | h3 <;> rcases hcs with c1 | c2
  · subst h1
    subst c1
    have hser : serializeImage (Image.mk w h 1 1 l)
        = 80 :: 53 :: 10 :: (decDigits w ++ 32 :: (decDigits h ++ 10 :: (decDigits 255 ++ 10 :: l))) := by
      unfold serializeImage
      rw [if_neg (show ¬(Image.mk w h 1 1 l).channels = 3 by norm_num),
        if_pos (show (Image.mk w h 1 1 l).channel_size = 1 from rfl)]
      simp [decDigits_255]
    have htok : readToken (80 :: 53 :: 10 :: (decDigits w ++ 32 :: (decDigits h ++ 10 :: (decDigits 255 ++ 10 :: l))))
        = ([80, 53], 10 :: (decDigits w ++ 32 :: (decDigits h ++ 10 :: (decDigits 255 ++ 10 :: l)))) := by
      unfold readToken skipWs
      simp [List.takeWhile_cons, List.dropWhile_cons, isWs]
    rw [hser]
    exact parseImage_canonical 53 1 1 w h (decDigits w) (decDigits h) (decDigits 255)
      ((255 : ℕ) : ℤ) l (by decide) htok
      (readInt_ws_dec 10 rfl w 32 _ (by decide))
      (readInt_ws_dec 32 rfl h 10 _ (by decide))
      (readInt_ws_dec 10 rfl 255 10 l (by decide))
      (by norm_num) (by omega)
  · subst h1
    subst c2
    have hser : serializeImage (Image.mk w h 2 1 l)
        = 80 :: 53 :: 10 :: (decDigits w ++ 32 :: (decDigits h ++ 10 :: (decDigits 65535 ++ 10 :: l))) := by
      unfold serializeImage
      rw [if_neg (show ¬(Image.mk w h 2 1 l).channels = 3 by norm_num),
        if_neg (show ¬(Image.mk w h 2 1 l).channel_size = 1 by norm_num)]
      simp [decDigits_65535]
    have htok : readToken (80 :: 53 :: 10 :: (decDigits w ++ 32 :: (decDigits h ++ 10 :: (decDigits 65535 ++ 10 :: l))))
        = ([80, 53], 10 :: (decDigits w ++ 32 :: (decDigits h ++ 10 :: (decDigits 65535 ++ 10 :: l)))) := by
      unfold readToken skipWs
      simp [List.takeWhile_cons, List.dropWhile_cons, isWs]
    rw [hser]
    exact parseImage_canonical 53 1 2 w h (decDigits w) (decDigits h) (decDigits 65535)
      ((65535 : ℕ) : ℤ) l (by decide) htok
      (readInt_ws_dec 10 rfl w 32 _ (by decide))
      (readInt_ws_dec 32 rfl h 10 _ (by decide))
      (readInt_ws_dec 10 rfl 65535 10 l (by decide))
      (by norm_num) (by omega)
  · subst h3
    subst c1
    have hser : serializeImage (Image.mk w h 1 3 l)
        = 80 :: 54 :: 10 :: (decDigits w ++ 32 :: (decDigits h ++ 10 :: (decDigits 255 ++ 10 :: l))) := by
      unfold serializeImage
      rw [if_pos (show (Image.mk w h 1 3 l).channels = 3 from rfl),
        if_pos (show (Image.mk w h 1 3 l).channel_size = 1 from rfl)]
      simp [decDigits_255]
    have htok : readToken (80 :: 54 :: 10 :: (decDigits w ++ 32 :: (decDigits h ++ 10 :: (decDigits 255 ++ 10 :: l))))
        = ([80, 54], 10 :: (decDigits w ++ 32 :: (decDigits h ++ 10 :: (decDigits 255 ++ 10 :: l)))) := by
      unfold readToken skipWs
      simp [List.takeWhile_cons, List.dropWhile_cons, isWs]
    rw [hser]
    exact parseImage_canonical 54 3 1 w h (decDigits w) (decDigits h) (decDigits 255)
      ((255 : ℕ) : ℤ) l (by decide) htok
      (readInt_ws_dec 10 rfl w 32 _ (by decide))
      (readInt_ws_dec 32 rfl h 10 _ (by decide))
      (readInt_ws_dec 10 rfl 255 10 l (by decide))
      (by norm_num) (by omega)
  · subst h3
    subst c2
    have hser : serializeImage (Image.mk w h 2 3 l)
        = 80 :: 54 :: 10 :: (decDigits w ++ 32 :: (decDigits h ++ 10 :: (decDigits 65535 ++ 10 :: l))) := by
      unfold serializeImage
      rw [if_pos (show (Image.mk w h 2 3 l).channels = 3 from rfl),
        if_neg (show ¬(Image.mk w h 2 3 l).channel_size = 1 by norm_num)]
      simp [decDigits_65535]
    have htok : readToken (80 :: 54 :: 10 :: (decDigits w ++ 32 :: (decDigits h ++ 10 :: (decDigits 65535 ++ 10 :: l))))
        = ([80, 54], 10 :: (decDigits w ++ 32 :: (decDigits h ++ 10 :: (decDigits 65535 ++ 10 :: l)))) := by
      unfold readToken skipWs
      simp [List.takeWhile_cons, List.dropWhile_cons, isWs]
    rw [hser]
    exact parseImage_canonical 54 3 2 w h (decDigits w) (decDigits h) (decDigits 65535)
      ((65535 : ℕ) : ℤ) l (by decide) htok
      (readInt_ws_dec 10 rfl w 32 _ (by decide))
      (readInt_ws_dec 32 rfl h 10 _ (by decide))
      (readInt_ws_dec 10 rfl 65535 10 l (by decide))
      (by norm_num) (by omega)

/-- Witness for C6's theorem at a concrete 2×1 16-bit RGB image. -/
theorem parse_serialize_roundtrip_witness :
    parseImage (serializeImage ⟨2, 1, 2, 3, List.replicate 12 0⟩)
      = some ⟨2, 1, 2, 3, List.replicate 12 0⟩ :=
  parse_serialize_roundtrip ⟨2, 1, 2, 3, List.replicate 12 0⟩ (Or.inr rfl) (Or.inr rfl)
    (by unfold Image.wf; decide)

/-- C6 counterexample: the parser accepts the space-separated header
"P5 1 1 255\n" followed by one data byte, but serializing the parsed image
emits the canonical newline layout, so the round trip is not
byte-identical. -/
theorem roundtrip_noncanonical_counterexample :
    parseImage [80, 53, 32, 49, 32, 49, 32, 50, 53, 53, 10, 7]
      = some ⟨1, 1, 1, 1, [7]⟩ ∧
    serializeImage (⟨1, 1, 1, 1, [7]⟩ : Image)
      = [80, 53, 10, 49, 32, 49, 10, 50, 53, 53, 10, 7] ∧
    serializeImage (⟨1, 1, 1, 1, [7]⟩ : Image)
      ≠ [80, 53, 32, 49, 32, 49, 32, 50, 53, 53, 10, 7] := by
  have hs : serializeImage (⟨1, 1, 1, 1, [7]⟩ : Image)
      = [80, 53, 10, 49, 32, 49, 10, 50, 53, 53, 10, 7] := by
    unfold serializeImage
    rw [if_neg (show ¬(⟨1, 1, 1, 1, [7]⟩ : Image).channels = 3 by decide),
      if_pos (show (⟨1, 1, 1, 1, [7]⟩ : Image).channel_size = 1 from rfl)]
    have h1 : decDigits 1 = [49] := by simp [decDigits]
    rw [show (⟨1, 1, 1, 1, [7]⟩ : Image).width = 1 from rfl,
      show (⟨1, 1, 1, 1, [7]⟩ : Image).height = 1 from rfl, h1]
    rfl
  refine ⟨by decide, hs, ?_⟩
  rw [hs]
  decide

end Kamscan
